import Mathlib

/-
Verification of the language-model tutorial notebook
(docs/examples/language_model/language_model.ipynb).

The notebook's own code consists of: hyperparameter constants, the helper
detach, the evaluation loop evaluate, the training loop train, the helper
get_batch and the cache-model scoring loop evaluate_cache.  Everything else
(tensor arithmetic, LSTM math, autograd, optimizers) belongs to the wrapped
framework and is modelled abstractly:

* an MXNet NDArray is an abstract leaf value of type V;
* a recurrent hidden state is a finite nested structure of Python tuples and
  lists with NDArray leaves, modelled by the mutual inductive PyTree/PyForest
  (PyForest is the cons-cell representation of the Python list of children);
* the framework's NDArray.detach() method is an abstract leaf operation;
  for the loop invariants a leaf is a pair (value, gradient-history flag):
  the forward pass sets the flag, NDArray.detach() clears it and keeps the
  value;
* a model forward pass together with the loss computation is an abstract
  function fwd taking the batch and the hidden-state values and returning
  the entries of the per-token loss tensor (as a list of rationals) and the
  new hidden-state values;
* float arithmetic is modelled over ℚ; a Python ZeroDivisionError (and the
  ValueError of range with step 0) is modelled by an Option-valued result
  being none.
-/

/-! ### Nested tuple/list structures with tensor leaves -/

mutual

/-- A finite nested structure of Python tuples and lists with tensor
leaves of type α: the shape of the recurrent hidden states handled by
detach. -/
inductive PyTree (α : Type) : Type where
  | leaf : α → PyTree α
  | tup : PyForest α → PyTree α
  | lst : PyForest α → PyTree α
deriving DecidableEq

/-- The children of a Python tuple or list node, as a cons list. -/
inductive PyForest (α : Type) : Type where
  | nil : PyForest α
  | cons : PyTree α → PyForest α → PyForest α
deriving DecidableEq

end

mutual

/-- The notebook's detach, parametrised by the framework's per-tensor
detach operation d.  Source:
  def detach(hidden):
      if isinstance(hidden, (tuple, list)):
          hidden = [detach(i) for i in hidden]
      else:
          hidden = hidden.detach()
      return hidden
A tuple or list becomes a list whose elements are detached recursively;
a leaf is detached by d. -/
def detach (d : α → α) : PyTree α → PyTree α
  | .leaf a => .leaf (d a)
  | .tup cs => .lst (detachList d cs)
  | .lst cs => .lst (detachList d cs)

/-- The list comprehension [detach(i) for i in hidden]. -/
def detachList (d : α → α) : PyForest α → PyForest α
  | .nil => .nil
  | .cons c cs => .cons (detach d c) (detachList d cs)

end

mutual

/-- Map over the leaves of a nested structure, keeping every constructor. -/
def PyTree.map (g : α → β) : PyTree α → PyTree β
  | .leaf a => .leaf (g a)
  | .tup cs => .tup (PyForest.map g cs)
  | .lst cs => .lst (PyForest.map g cs)

/-- Map over the leaves of a forest of nested structures. -/
def PyForest.map (g : α → β) : PyForest α → PyForest β
  | .nil => .nil
  | .cons c cs => .cons (PyTree.map g c) (PyForest.map g cs)

end

mutual

/-- The leaves of a nested structure, in left-to-right order. -/
def PyTree.leaves : PyTree α → List α
  | .leaf a => [a]
  | .tup cs => PyForest.leaves cs
  | .lst cs => PyForest.leaves cs

/-- The leaves of a forest, in left-to-right order. -/
def PyForest.leaves : PyForest α → List α
  | .nil => []
  | .cons c cs => PyTree.leaves c ++ PyForest.leaves cs

end

mutual

theorem PyTree.map_map (g : β → γ) (f : α → β) (t : PyTree α) :
    PyTree.map g (PyTree.map f t) = PyTree.map (fun a => g (f a)) t := by
  cases t with
  | leaf a => rfl
  | tup cs => simp [PyTree.map, forest_map_map g f cs]
  | lst cs => simp [PyTree.map, forest_map_map g f cs]

theorem forest_map_map (g : β → γ) (f : α → β) (cs : PyForest α) :
    PyForest.map g (PyForest.map f cs) = PyForest.map (fun a => g (f a)) cs := by
  cases cs with
  | nil => rfl
  | cons c cs => simp [PyForest.map, PyTree.map_map g f c, forest_map_map g f cs]

end

mutual

theorem PyTree.map_id (t : PyTree α) : PyTree.map (fun a => a) t = t := by
  cases t with
  | leaf a => rfl
  | tup cs => simp [PyTree.map, forest_map_id cs]
  | lst cs => simp [PyTree.map, forest_map_id cs]

theorem forest_map_id (cs : PyForest α) : PyForest.map (fun a => a) cs = cs := by
  cases cs with
  | nil => rfl
  | cons c cs => simp [PyForest.map, PyTree.map_id c, forest_map_id cs]

end

mutual

theorem PyTree.leaves_map (g : α → β) (t : PyTree α) :
    (PyTree.map g t).leaves = t.leaves.map g := by
  cases t with
  | leaf a => rfl
  | tup cs => simp [PyTree.map, PyTree.leaves, forest_leaves_map g cs]
  | lst cs => simp [PyTree.map, PyTree.leaves, forest_leaves_map g cs]

theorem forest_leaves_map (g : α → β) (cs : PyForest α) :
    (PyForest.map g cs).leaves = cs.leaves.map g := by
  cases cs with
  | nil => rfl
  | cons c cs => simp [PyForest.map, PyForest.leaves, PyTree.leaves_map g c,
      forest_leaves_map g cs]

end

mutual

/-- detach acts on leaves like a map: it equals constructor normalisation
(detach of the identity, turning every tuple into a list) followed by
mapping d over the leaves. -/
theorem detach_eq_map_detach_id (d : α → α) (t : PyTree α) :
    detach d t = PyTree.map d (detach (fun a => a) t) := by
  cases t with
  | leaf a => rfl
  | tup cs => simp [detach, PyTree.map, detachList_eq_map_detachList_id d cs]
  | lst cs => simp [detach, PyTree.map, detachList_eq_map_detachList_id d cs]

theorem detachList_eq_map_detachList_id (d : α → α) (cs : PyForest α) :
    detachList d cs = PyForest.map d (detachList (fun a => a) cs) := by
  cases cs with
  | nil => rfl
  | cons c cs => simp [detachList, PyForest.map, detach_eq_map_detach_id d c,
      detachList_eq_map_detachList_id d cs]

end

mutual

theorem detach_leaves (d : α → α) (t : PyTree α) :
    (detach d t).leaves = t.leaves.map d := by
  cases t with
  | leaf a => rfl
  | tup cs => simp [detach, PyTree.leaves, detachList_leaves d cs]
  | lst cs => simp [detach, PyTree.leaves, detachList_leaves d cs]

theorem detachList_leaves (d : α → α) (cs : PyForest α) :
    (detachList d cs).leaves = cs.leaves.map d := by
  cases cs with
  | nil => rfl
  | cons c cs => simp [detachList, PyForest.leaves, detach_leaves d c,
      detachList_leaves d cs]

end

mutual

theorem detach_detach (d : α → α) (hd : ∀ a, d (d a) = d a) (t : PyTree α) :
    detach d (detach d t) = detach d t := by
  cases t with
  | leaf a => simp [detach, hd a]
  | tup cs => simp [detach, detachList_detachList d hd cs]
  | lst cs => simp [detach, detachList_detachList d hd cs]

theorem detachList_detachList (d : α → α) (hd : ∀ a, d (d a) = d a) (cs : PyForest α) :
    detachList d (detachList d cs) = detachList d cs := by
  cases cs with
  | nil => rfl
  | cons c cs => simp [detachList, detach_detach d hd c, detachList_detachList d hd cs]

end

/-! ### Gradient-history tracking for the truncated-BPTT loops

A leaf of a tracked hidden state is a pair (tensor value, flag); the flag
is true exactly when the tensor carries gradient history.  The framework's
begin_state produces fresh tensors without history; a forward pass returns
hidden tensors with history; NDArray.detach() keeps the value and clears
the flag. -/

/-- The framework's per-tensor NDArray.detach(): keep the value, drop the
gradient history. -/
def detachLeaf {V : Type} : V × Bool → V × Bool := fun p => (p.1, false)

/-- Wrap the values of a hidden state as tracked leaves carrying gradient
history, as produced by a forward pass. -/
def markGrad {V : Type} (t : PyTree V) : PyTree (V × Bool) :=
  t.map (fun v => (v, true))

/-- Wrap the values of a hidden state as tracked leaves without gradient
history, as produced by begin_state. -/
def freshState {V : Type} (t : PyTree V) : PyTree (V × Bool) :=
  t.map (fun v => (v, false))

/-- Forget the tracking flags, keeping the tensor values. -/
def stripGrad {V : Type} (t : PyTree (V × Bool)) : PyTree V :=
  t.map Prod.fst

/-- The value-level effect of the notebook's detach: every tuple becomes a
list and every leaf value is kept. -/
def normHid {V : Type} (t : PyTree V) : PyTree V :=
  detach (fun v => v) t

/-- True when no leaf of a tracked hidden state carries gradient history. -/
def noGradHistory {V : Type} (t : PyTree (V × Bool)) : Bool :=
  t.leaves.all (fun p => p.2 == false)

/-- Hidden-state transition of one iteration of the loop in evaluate:
  output, hidden = model(data, hidden)
  hidden = detach(hidden)
The forward pass reads the values of the incoming hidden state and its
result is passed through the notebook's detach before the next batch. -/
def evalHidStep {V D : Type} (fwd : D → PyTree V → List ℚ × PyTree V)
    (h : PyTree (V × Bool)) (d : D) : PyTree (V × Bool) :=
  detach detachLeaf (markGrad (fwd d (stripGrad h)).2)

/-- Hidden-state transition of one iteration of the batch loop in train:
  hiddens = detach(hiddens)
  ... output, h = model(X, h) ... hiddens[j] = h
The stored hidden state is detached at the start of the body, before the
forward pass of the batch. -/
def trainHidStep {V D : Type} (fwd : D → PyTree V → List ℚ × PyTree V)
    (h : PyTree (V × Bool)) (d : D) : PyTree (V × Bool) :=
  markGrad (fwd d (stripGrad (detach detachLeaf h))).2

/-- Hidden-state transition of one iteration of the loop in evaluate_cache:
  outs, ..., hidden = model(data, target, ..., hidden)
  ...
  hidden = detach(hidden)
The detach is the last statement of the body, so the hidden state is
detached before the next segment's forward pass. -/
def cacheHidStep {V D : Type} (fwd : D → PyTree V → List ℚ × PyTree V)
    (h : PyTree (V × Bool)) (d : D) : PyTree (V × Bool) :=
  detach detachLeaf (markGrad (fwd d (stripGrad h)).2)

/-- The hidden states passed to the forward pass of each batch of
evaluate, starting from the begin_state value z. -/
def evalHiddens {V D : Type} (fwd : D → PyTree V → List ℚ × PyTree V)
    (z : PyTree V) (ds : List D) : List (PyTree (V × Bool)) :=
  List.scanl (evalHidStep fwd) (freshState z) ds

/-- The hidden states stored across iterations of the batch loop of train
(the detach of the next iteration has not yet been applied to them). -/
def trainStoredHiddens {V D : Type} (fwd : D → PyTree V → List ℚ × PyTree V)
    (z : PyTree V) (ds : List D) : List (PyTree (V × Bool)) :=
  List.scanl (trainHidStep fwd) (freshState z) ds

/-- The hidden states passed to the forward pass of each batch of train:
the stored hidden state after the in-body hiddens = detach(hiddens). -/
def trainForwardInputs {V D : Type} (fwd : D → PyTree V → List ℚ × PyTree V)
    (z : PyTree V) (ds : List D) : List (PyTree (V × Bool)) :=
  (trainStoredHiddens fwd z ds).map (detach detachLeaf)

/-- The hidden states passed to the forward pass of each segment of
evaluate_cache. -/
def cacheHiddens {V D : Type} (fwd : D → PyTree V → List ℚ × PyTree V)
    (z : PyTree V) (ds : List D) : List (PyTree (V × Bool)) :=
  List.scanl (cacheHidStep fwd) (freshState z) ds

/-- The value-level hidden recurrence: forward pass on the stored values,
then the constructor normalisation performed by detach. -/
def pureHidStep {V D : Type} (fwd : D → PyTree V → List ℚ × PyTree V)
    (h : PyTree V) (d : D) : PyTree V :=
  normHid (fwd d h).2

theorem stripGrad_freshState {V : Type} (t : PyTree V) : stripGrad (freshState t) = t := by
  unfold stripGrad freshState
  rw [PyTree.map_map]
  exact PyTree.map_id t

mutual

theorem detach_map (d : β → β) (g : α → β) (t : PyTree α) :
    detach d (PyTree.map g t) = PyTree.map (fun a => d (g a)) (detach (fun a => a) t) := by
  cases t with
  | leaf a => rfl
  | tup cs => simp [detach, PyTree.map, detachList_map d g cs]
  | lst cs => simp [detach, PyTree.map, detachList_map d g cs]

theorem detachList_map (d : β → β) (g : α → β) (cs : PyForest α) :
    detachList d (PyForest.map g cs)
      = PyForest.map (fun a => d (g a)) (detachList (fun a => a) cs) := by
  cases cs with
  | nil => rfl
  | cons c cs => simp [detachList, PyForest.map, detach_map d g c, detachList_map d g cs]

end

theorem detach_wrap {V : Type} (b : Bool) (t : PyTree V) :
    detach detachLeaf (PyTree.map (fun v => (v, b)) t) = freshState (normHid t) := by
  unfold freshState normHid
  rw [detach_map detachLeaf (fun v => (v, b)) t]
  rfl

theorem noGradHistory_freshState {V : Type} (t : PyTree V) :
    noGradHistory (freshState t) = true := by
  unfold noGradHistory freshState
  rw [PyTree.leaves_map]
  simp [List.all_eq_true]

theorem evalHiddens_eq_pure {V D : Type} (fwd : D → PyTree V → List ℚ × PyTree V)
    (ds : List D) : ∀ h : PyTree V,
    List.scanl (evalHidStep fwd) (freshState h) ds
      = (List.scanl (pureHidStep fwd) h ds).map freshState := by
  induction ds with
  | nil => intro h; simp [List.scanl]
  | cons d ds ih =>
    intro h
    rw [List.scanl_cons, List.scanl_cons]
    have hstep : evalHidStep fwd (freshState h) d = freshState (pureHidStep fwd h d) := by
      unfold evalHidStep pureHidStep markGrad
      rw [stripGrad_freshState, detach_wrap]
    rw [hstep, ih (pureHidStep fwd h d)]
    simp

theorem trainStored_detach_eq_pure {V D : Type} (fwd : D → PyTree V → List ℚ × PyTree V)
    (ds : List D) : ∀ (h : PyTree (V × Bool)) (p : PyTree V),
    detach detachLeaf h = freshState p →
    (List.scanl (trainHidStep fwd) h ds).map (detach detachLeaf)
      = (List.scanl (pureHidStep fwd) p ds).map freshState := by
  induction ds with
  | nil =>
    intro h p hp
    simp [List.scanl, hp]
  | cons d ds ih =>
    intro h p hp
    rw [List.scanl_cons, List.scanl_cons, List.map_append, List.map_append]
    have hstore : trainHidStep fwd h d = markGrad (fwd d p).2 := by
      unfold trainHidStep
      rw [hp, stripGrad_freshState]
    have hnext : detach detachLeaf (trainHidStep fwd h d)
        = freshState (pureHidStep fwd p d) := by
      rw [hstore]
      unfold markGrad pureHidStep
      exact detach_wrap true (fwd d p).2
    rw [ih (trainHidStep fwd h d) (pureHidStep fwd p d) hnext]
    simp [hp]

theorem detach_freshState {V : Type} (t : PyTree V) :
    detach detachLeaf (freshState t) = freshState (normHid t) := by
  unfold freshState
  exact detach_wrap false t

/-! ### The evaluation loop evaluate

Source:
  def evaluate(model, data_source, batch_size, ctx):
      total_L = 0.0
      ntotal = 0
      hidden = model.begin_state(batch_size=batch_size, func=mx.nd.zeros, ctx=ctx)
      for i, (data, target) in enumerate(data_source):
          data = data.as_in_context(ctx)
          target = target.as_in_context(ctx)
          output, hidden = model(data, hidden)
          hidden = detach(hidden)
          L = loss(output.reshape(-3, -1), target.reshape(-1))
          total_L += mx.nd.sum(L).asscalar()
          ntotal += L.size
      return total_L / ntotal

fwd d h models the forward pass together with the loss computation: it
returns the entries of the loss tensor L (one per predicted token, so
L.size entries) and the new hidden state. -/

/-- The body of evaluate's batch loop, folding the accumulators total_L and
ntotal over the data source while threading the detached hidden state. -/
def evalGo {V D : Type} (fwd : D → PyTree V → List ℚ × PyTree V) :
    List D → ℚ → ℕ → PyTree (V × Bool) → ℚ × ℕ
  | [], totalL, ntotal, _ => (totalL, ntotal)
  | d :: ds, totalL, ntotal, hidden =>
    let r := fwd d (stripGrad hidden)
    evalGo fwd ds (totalL + r.1.sum) (ntotal + r.1.length)
      (detach detachLeaf (markGrad r.2))

/-- The notebook's evaluate: z is the begin_state hidden state (built from
mx.nd.zeros, so its leaves carry no gradient history).  The final
total_L / ntotal is a Python ZeroDivisionError when ntotal = 0, modelled
as none. -/
def evaluate {V D : Type} (fwd : D → PyTree V → List ℚ × PyTree V)
    (z : PyTree V) (ds : List D) : Option ℚ :=
  let r := evalGo fwd ds 0 0 (freshState z)
  if r.2 = 0 then none else some (r.1 / (r.2 : ℚ))

/-- The per-batch loss-tensor entries along the run of the model over the
data source, threading the hidden state (with the value-level effect of
detach) from the initial state h. -/
def lossSeq {V D : Type} (fwd : D → PyTree V → List ℚ × PyTree V) :
    List D → PyTree V → List (List ℚ)
  | [], _ => []
  | d :: ds, h =>
    let r := fwd d h
    r.1 :: lossSeq fwd ds (normHid r.2)

theorem evalGo_eq_lossSeq {V D : Type} (fwd : D → PyTree V → List ℚ × PyTree V)
    (ds : List D) : ∀ (p : PyTree V) (totalL : ℚ) (ntotal : ℕ),
    evalGo fwd ds totalL ntotal (freshState p)
      = (totalL + (lossSeq fwd ds p).flatten.sum,
         ntotal + (lossSeq fwd ds p).flatten.length) := by
  induction ds with
  | nil => intro p totalL ntotal; simp [evalGo, lossSeq]
  | cons d ds ih =>
    intro p totalL ntotal
    rw [show evalGo fwd (d :: ds) totalL ntotal (freshState p)
        = evalGo fwd ds (totalL + (fwd d (stripGrad (freshState p))).1.sum)
            (ntotal + (fwd d (stripGrad (freshState p))).1.length)
            (detach detachLeaf (markGrad (fwd d (stripGrad (freshState p))).2)) from rfl]
    rw [stripGrad_freshState]
    have hwrap : detach detachLeaf (markGrad (fwd d p).2)
        = freshState (normHid (fwd d p).2) := detach_wrap true (fwd d p).2
    rw [hwrap, ih (normHid (fwd d p).2)]
    simp [lossSeq]
    constructor
    · ring
    · omega

/-! ### The helper get_batch

Source:
  def get_batch(data_source, i, seq_len=None):
      seq_len = min(seq_len if seq_len else bptt, len(data_source) - 1 - i)
      data = data_source[i:i+seq_len]
      target = data_source[i+1:i+1+seq_len]
      return data, target
-/

/-- Python slicing xs[a:b] for a start index a ≥ 0.  In get_batch the stop
index is min(i + bptt, len - 1) or min(i + 1 + bptt, len); a negative stop
only arises as the value -1 on an empty data source, where Python's
from-the-end reading of -1 also yields the empty slice, so clamping the
stop to 0 with Int.toNat is faithful for every call get_batch makes. -/
def pySlice {α : Type} (xs : List α) (a : ℕ) (b : ℤ) : List α :=
  (xs.take b.toNat).drop a

/-- The notebook's get_batch.  The global bptt is a parameter; seq_len is
an optional argument whose Python-falsy values (None and 0) are replaced
by bptt by the expression (seq_len if seq_len else bptt). -/
def get_batch {α : Type} (bptt : ℕ) (ds : List α) (i : ℕ) (seq_len : Option ℕ) :
    List α × List α :=
  let sl : ℕ :=
    match seq_len with
    | none => bptt
    | some 0 => bptt
    | some s => s
  let L : ℤ := min (sl : ℤ) ((ds.length : ℤ) - 1 - (i : ℤ))
  (pySlice ds i (i + L), pySlice ds (i + 1) (i + 1 + L))

/-! ### The cache-model scoring loop evaluate_cache

Source:
  def evaluate_cache(model, data_source, batch_size, ctx):
      total_L = 0.0
      hidden = model.begin_state(batch_size=batch_size, func=mx.nd.zeros, ctx=ctx)
      next_word_history = None
      cache_history = None
      for i in range(0, len(data_source) - 1, bptt):
          if i > 0:
              print('Batch %d, ppl %f'% (i, math.exp(total_L/i)))
          if i == bptt:
              return total_L/i
          data, target = get_batch(data_source, i)
          data = data.as_in_context(ctx)
          target = target.as_in_context(ctx)
          L = 0
          outs, next_word_history, cache_history, hidden = model(data, target,
                         next_word_history, cache_history, hidden)
          for out in outs:
              L += (-mx.nd.log(out)).asscalar()
          total_L += L / data.shape[1]
          hidden = detach(hidden)
      return total_L / len(data_source)

The model, its cache state and the hidden state evolve deterministically
with the position in the data source, so the scoring is abstracted by
f i seqLen: the list of values (-log out) that the inner for-loop adds up
for the segment data_source[i : i+seqLen] (one entry per element of outs).
bsz is data.shape[1], the batch dimension of the batchified data source
(val_batch_size = 1 in the notebook).  n is len(data_source). -/

/-- The loop of evaluate_cache.  The first argument is fuel: i strictly
increases by bptt ≥ 1 in each iteration and the loop stops once
i ≥ n - 1, so n + 1 steps always suffice; the fuel never runs out when
the top-level entry point supplies n + 1. -/
def evalCacheGo (f : ℕ → ℕ → List ℚ) (bsz : ℚ) (n bptt : ℕ) :
    ℕ → ℕ → ℚ → Option ℚ
  | 0, _, _ => none
  | fuel + 1, i, totalL =>
    if i < n - 1 then
      if i = bptt then some (totalL / (i : ℚ))
      else
        let seqLen := min bptt (n - 1 - i)
        evalCacheGo f bsz n bptt fuel (i + bptt) (totalL + (f i seqLen).sum / bsz)
    else if n = 0 then none
    else some (totalL / (n : ℚ))

/-- The notebook's evaluate_cache.  A zero bptt makes range(0, n-1, bptt)
raise ValueError in Python, modelled as none (the notebook sets
bptt = 2000 before calling it). -/
def evaluate_cache (f : ℕ → ℕ → List ℚ) (bsz : ℚ) (n bptt : ℕ) : Option ℚ :=
  if bptt = 0 then none else evalCacheGo f bsz n bptt (n + 1) 0 0

/-- Modelled from the claim's words, not from the source: the same loop
with no early return, walking every segment of the data source and
dividing the accumulated loss by len(data_source) at the end.  It is the
behaviour claim C1 ascribes to evaluate_cache. -/
def evalCacheFullGo (f : ℕ → ℕ → List ℚ) (bsz : ℚ) (n bptt : ℕ) :
    ℕ → ℕ → ℚ → Option ℚ
  | 0, _, _ => none
  | fuel + 1, i, totalL =>
    if i < n - 1 then
      let seqLen := min bptt (n - 1 - i)
      evalCacheFullGo f bsz n bptt fuel (i + bptt) (totalL + (f i seqLen).sum / bsz)
    else if n = 0 then none
    else some (totalL / (n : ℚ))

/-- Modelled from the claim's words: evaluate_cache without the early
return at i == bptt. -/
def evaluate_cache_full (f : ℕ → ℕ → List ℚ) (bsz : ℚ) (n bptt : ℕ) : Option ℚ :=
  if bptt = 0 then none else evalCacheFullGo f bsz n bptt (n + 1) 0 0

/-- A concrete scoring function for counterexamples: every predicted token
of the segment starting at i contributes -log probability i. -/
def cacheProbe : ℕ → ℕ → List ℚ := fun i seqLen => List.replicate seqLen (i : ℚ)

/-! ### The straight-line structure of train's batch loop

Source (body of "for i, (data, target) in enumerate(train_data)"):
  data_list = gluon.utils.split_and_load(data, context, ...)
  target_list = gluon.utils.split_and_load(target, context, ...)
  hiddens = detach(hiddens)
  L = 0
  Ls = []
  with autograd.record():
      for j, (X, y, h) in enumerate(zip(data_list, target_list, hiddens)):
          output, h = model(X, h)
          batch_L = loss(output.reshape(-3, -1), y.reshape(-1,))
          L = L + batch_L.as_in_context(context[0]) / X.size
          Ls.append(batch_L / X.size)
          hiddens[j] = h
  L.backward()
  grads = [p.grad(x.context) for p in parameters for x in data_list]
  gluon.utils.clip_global_norm(grads, grad_clip)
  trainer.step(1)
  total_L += sum([mx.nd.sum(l).asscalar() for l in Ls])
  if i % log_interval == 0 and i > 0: ...
-/

/-- The statements of train's batch-loop body, as trace events. -/
inductive TrainOp : Type where
  | splitData
  | splitTarget
  | detachHiddens
  | forward
  | lossCalc
  | accumLoss
  | storeHidden
  | backward
  | collectGrads
  | clipGlobalNorm
  | trainerStep
  | accumTotal
  | logStat
deriving DecidableEq

/-- One pass of the per-device j-loop inside the with autograd.record()
block: forward pass, loss computation, loss accumulation (L = L + ... and
Ls.append), and storing the new hidden state.  The Bool true records that
these statements execute with gradient recording active. -/
def recordBlock : List (TrainOp × Bool) :=
  [(TrainOp.forward, true), (TrainOp.lossCalc, true),
   (TrainOp.accumLoss, true), (TrainOp.storeHidden, true)]

/-- The straight-line trace of one iteration of the batch loop of train,
in source order, for ndev devices (the notebook runs with one device); the
Bool of each event records whether the statement runs inside the
autograd.record() context. -/
def trainBatchTrace (ndev : ℕ) : List (TrainOp × Bool) :=
  [(TrainOp.splitData, false), (TrainOp.splitTarget, false),
   (TrainOp.detachHiddens, false)]
    ++ (List.replicate ndev recordBlock).flatten
    ++ [(TrainOp.backward, false), (TrainOp.collectGrads, false),
        (TrainOp.clipGlobalNorm, false), (TrainOp.trainerStep, false),
        (TrainOp.accumTotal, false), (TrainOp.logStat, false)]

/-! ### The hyperparameter bindings of the notebook

The hyperparameter cell binds
  batch_size = 20 * len(context)   -- 20 with the single device
  lr = 20
  epochs = 3
  bptt = 35
  grad_clip = 0.25
and the cache-model hyperparameter cell later rebinds
  bptt = 2000
No other top-level statement of the notebook assigns to any of these five
names (train's lr is a function-local parameter). -/

/-- The five hyperparameter names of the hyperparameter cell. -/
inductive HParam : Type where
  | batch_size
  | lr
  | epochs
  | bptt
  | grad_clip
deriving DecidableEq

/-- All top-level assignments to hyperparameter names, in execution
order. -/
def hparamAssigns : List (HParam × ℚ) :=
  [(HParam.batch_size, 20), (HParam.lr, 20), (HParam.epochs, 3),
   (HParam.bptt, 35), (HParam.grad_clip, 1/4), (HParam.bptt, 2000)]

/-- The value a use of hyperparameter x sees after the first k assignments
have executed (none before the first binding of x). -/
def hparamAt (k : ℕ) (x : HParam) : Option ℚ :=
  (((hparamAssigns.take k).filter (fun p => p.1 == x)).map Prod.snd).getLast?

/-! ### The per-epoch tail of train

Source (per epoch, after the batch loop):
  val_L = evaluate(model, val_data, batch_size, context[0])
  if val_L < best_val:
      best_val = val_L
      test_L = evaluate(model, test_data, batch_size, context[0])
      model.save_params(...)
  else:
      lr = lr*0.25
      trainer.set_learning_rate(lr)
with best_val = float("Inf") before the first epoch, modelled by the top
element of WithTop ℚ. -/

/-- What the tail of an epoch did: either test evaluation plus parameter
saving, or learning-rate decay (with neither test evaluation nor
saving). -/
inductive EpochAction : Type where
  | saveAndTest
  | decayLr
deriving DecidableEq

/-- The state train threads through the per-epoch tail. -/
structure TrainLoopState : Type where
  best : WithTop ℚ
  lr : ℚ
  actions : List EpochAction

/-- The per-epoch tail of train, given the epoch's validation loss. -/
def epochStep (s : TrainLoopState) (valL : ℚ) : TrainLoopState :=
  if (valL : WithTop ℚ) < s.best then
    { best := (valL : WithTop ℚ), lr := s.lr,
      actions := s.actions ++ [EpochAction.saveAndTest] }
  else
    { best := s.best, lr := s.lr * (1/4),
      actions := s.actions ++ [EpochAction.decayLr] }

/-- Folding the per-epoch tail over the sequence of validation losses,
starting from best_val = Inf and the initial learning rate. -/
def trainEpochs (lr0 : ℚ) (vals : List ℚ) : TrainLoopState :=
  vals.foldl epochStep { best := ⊤, lr := lr0, actions := [] }

/-- The branch taken in each epoch, described directly from the claim:
save and test exactly when the validation loss is strictly below the
minimum seen so far, decay the learning rate otherwise. -/
def epochActionsSpec : List ℚ → WithTop ℚ → List EpochAction
  | [], _ => []
  | v :: vs, b =>
    (if (v : WithTop ℚ) < b then EpochAction.saveAndTest else EpochAction.decayLr)
      :: epochActionsSpec vs (min b (v : WithTop ℚ))

theorem epochStep_cases (b : WithTop ℚ) (l : ℚ) (a : List EpochAction) (v : ℚ) :
    epochStep ⟨b, l, a⟩ v
      = if (v : WithTop ℚ) < b then ⟨(v : WithTop ℚ), l, a ++ [EpochAction.saveAndTest]⟩
        else ⟨b, l * (1/4), a ++ [EpochAction.decayLr]⟩ := rfl

theorem foldl_epochStep_best (vals : List ℚ) :
    ∀ (b : WithTop ℚ) (l : ℚ) (a : List EpochAction),
    (List.foldl epochStep ⟨b, l, a⟩ vals).best
      = List.foldl (fun (x : WithTop ℚ) (v : ℚ) => min x (v : WithTop ℚ)) b vals := by
  induction vals with
  | nil => intro b l a; simp
  | cons v vs ih =>
    intro b l a
    rw [List.foldl_cons, List.foldl_cons, epochStep_cases]
    by_cases h : (v : WithTop ℚ) < b
    · rw [if_pos h, ih, min_eq_right h.le]
    · rw [if_neg h, ih, min_eq_left (not_lt.mp h)]

theorem foldl_epochStep_actions (vals : List ℚ) :
    ∀ (b : WithTop ℚ) (l : ℚ) (a : List EpochAction),
    (List.foldl epochStep ⟨b, l, a⟩ vals).actions = a ++ epochActionsSpec vals b := by
  induction vals with
  | nil => intro b l a; simp [epochActionsSpec]
  | cons v vs ih =>
    intro b l a
    rw [List.foldl_cons, epochStep_cases]
    by_cases h : (v : WithTop ℚ) < b
    · rw [if_pos h, ih]
      rw [show epochActionsSpec (v :: vs) b
          = EpochAction.saveAndTest :: epochActionsSpec vs (min b (v : WithTop ℚ)) from by
        simp [epochActionsSpec, h]]
      rw [min_eq_right h.le]
      simp
    · rw [if_neg h, ih]
      rw [show epochActionsSpec (v :: vs) b
          = EpochAction.decayLr :: epochActionsSpec vs (min b (v : WithTop ℚ)) from by
        simp [epochActionsSpec, h]]
      rw [min_eq_left (not_lt.mp h)]
      simp

theorem foldl_epochStep_lr (vals : List ℚ) :
    ∀ (b : WithTop ℚ) (l : ℚ) (a : List EpochAction),
    (List.foldl epochStep ⟨b, l, a⟩ vals).lr
      = l * (1/4) ^ ((epochActionsSpec vals b).count EpochAction.decayLr) := by
  induction vals with
  | nil => intro b l a; simp [epochActionsSpec]
  | cons v vs ih =>
    intro b l a
    rw [List.foldl_cons, epochStep_cases]
    by_cases h : (v : WithTop ℚ) < b
    · rw [if_pos h, ih]
      rw [show epochActionsSpec (v :: vs) b
          = EpochAction.saveAndTest :: epochActionsSpec vs (min b (v : WithTop ℚ)) from by
        simp [epochActionsSpec, h]]
      rw [min_eq_right h.le]
      rw [List.count_cons]
      simp
    · rw [if_neg h, ih]
      rw [show epochActionsSpec (v :: vs) b
          = EpochAction.decayLr :: epochActionsSpec vs (min b (v : WithTop ℚ)) from by
        simp [epochActionsSpec, h]]
      rw [min_eq_left (not_lt.mp h)]
      rw [List.count_cons]
      simp [pow_succ]
      ring

/-! ### Claim theorems -/

/-- C9: for every finite nested structure of tuples and lists with tensor
leaves, detach returns a structure with the same nesting shape and the
same leaf order in which every tuple and every list has become a list
(detach of the identity leaf operation is exactly that normalisation, and
detach d is that normalisation followed by mapping d over the leaves);
the leaves are the detached values in order; and provided detaching a
leaf twice equals detaching it once, detach is idempotent. -/
theorem claim_C9 {α : Type} (d : α → α) (t : PyTree α) :
    detach d t = PyTree.map d (detach (fun a => a) t) ∧
    (detach d t).leaves = t.leaves.map d ∧
    ((∀ a, d (d a) = d a) → detach d (detach d t) = detach d t) :=
  ⟨detach_eq_map_detach_id d t, detach_leaves d t, fun hd => detach_detach d hd t⟩

/-- A concrete nested hidden state for witnesses: the tuple (leaf 1, [leaf 2]). -/
def treeW : PyTree ℕ :=
  PyTree.tup (PyForest.cons (PyTree.leaf 1)
    (PyForest.cons (PyTree.lst (PyForest.cons (PyTree.leaf 2) PyForest.nil)) PyForest.nil))

theorem claim_C9_witness :
    detach (fun _ : ℕ => 0) (detach (fun _ : ℕ => 0) treeW)
        = detach (fun _ : ℕ => 0) treeW ∧
    (detach (fun _ : ℕ => 0) treeW).leaves = treeW.leaves.map (fun _ => 0) :=
  ⟨(claim_C9 (fun _ : ℕ => 0) treeW).2.2 (fun _ => rfl),
   (claim_C9 (fun _ : ℕ => 0) treeW).2.1⟩

/-- C3: in the training loop, in evaluate and in evaluate_cache, the hidden
state entering each batch's forward pass is the detach of the hidden state
produced by the previous batch: the sequence of hidden states passed to
the forward passes equals the value-level hidden recurrence wrapped as
history-free states.  Hence the values are preserved across batch
boundaries while no hidden state entering a forward pass carries gradient
history. -/
theorem claim_C3 {V D : Type} (fwd : D → PyTree V → List ℚ × PyTree V)
    (z : PyTree V) (ds : List D) :
    evalHiddens fwd z ds = (List.scanl (pureHidStep fwd) z ds).map freshState ∧
    trainForwardInputs fwd z ds
      = (List.scanl (pureHidStep fwd) (normHid z) ds).map freshState ∧
    cacheHiddens fwd z ds = (List.scanl (pureHidStep fwd) z ds).map freshState ∧
    (∀ x ∈ evalHiddens fwd z ds, noGradHistory x = true) ∧
    (∀ x ∈ trainForwardInputs fwd z ds, noGradHistory x = true) ∧
    (∀ x ∈ cacheHiddens fwd z ds, noGradHistory x = true) := by
  have h1 : evalHiddens fwd z ds
      = (List.scanl (pureHidStep fwd) z ds).map freshState :=
    evalHiddens_eq_pure fwd ds z
  have h2 : trainForwardInputs fwd z ds
      = (List.scanl (pureHidStep fwd) (normHid z) ds).map freshState := by
    unfold trainForwardInputs trainStoredHiddens
    exact trainStored_detach_eq_pure fwd ds (freshState z) (normHid z) (detach_freshState z)
  have h3 : cacheHiddens fwd z ds
      = (List.scanl (pureHidStep fwd) z ds).map freshState := by
    unfold cacheHiddens
    have hsame : @cacheHidStep V D fwd = @evalHidStep V D fwd := rfl
    rw [hsame]
    exact evalHiddens_eq_pure fwd ds z
  have hng : ∀ (l : List (PyTree V)) (x : PyTree (V × Bool)),
      x ∈ l.map freshState → noGradHistory x = true := by
    intro l x hx
    rw [List.mem_map] at hx
    obtain ⟨p, _, rfl⟩ := hx
    exact noGradHistory_freshState p
  refine ⟨h1, h2, h3, ?_, ?_, ?_⟩
  · intro x hx
    rw [h1] at hx
    exact hng _ x hx
  · intro x hx
    rw [h2] at hx
    exact hng _ x hx
  · intro x hx
    rw [h3] at hx
    exact hng _ x hx

/-- A concrete forward-and-loss function for witnesses: the batch is a
rational d, the loss tensor is the singleton [d] and the hidden state is a
single leaf. -/
def fwdW : ℚ → PyTree Unit → List ℚ × PyTree Unit :=
  fun d _ => ([d], PyTree.leaf ())

theorem claim_C3_witness :
    noGradHistory (freshState (PyTree.leaf ())) = true :=
  (claim_C3 fwdW (PyTree.leaf ()) []).2.2.2.1 (freshState (PyTree.leaf ()))
    (by simp [evalHiddens])

/-- C4: for a non-empty data source whose batches each produce at least one
loss entry (every loss tensor of the notebook has seq_len * batch_size ≥ 1
entries), evaluate threads the hidden state from the begin_state value z
(built with mx.nd.zeros) and returns the sum over all batches of the
summed loss divided by the total number of per-token loss entries: the
mean per-token loss over the whole data source. -/
theorem claim_C4 {V D : Type} (fwd : D → PyTree V → List ℚ × PyTree V)
    (z : PyTree V) (ds : List D) (hne : ds ≠ [])
    (hfwd : ∀ (d : D) (h : PyTree V), (fwd d h).1 ≠ []) :
    evaluate fwd z ds
      = some ((lossSeq fwd ds z).flatten.sum
          / ((lossSeq fwd ds z).flatten.length : ℚ)) := by
  unfold evaluate
  rw [evalGo_eq_lossSeq fwd ds z 0 0]
  have hlen : (lossSeq fwd ds z).flatten.length ≠ 0 := by
    cases ds with
    | nil => exact absurd rfl hne
    | cons d ds =>
      rw [show lossSeq fwd (d :: ds) z
          = (fwd d z).1 :: lossSeq fwd ds (normHid (fwd d z).2) from rfl]
      rw [List.flatten_cons, List.length_append]
      have := hfwd d z
      rw [← List.length_pos] at this
      omega
  simp only [zero_add]
  rw [if_neg hlen]

theorem claim_C4_witness :
    evaluate fwdW (PyTree.leaf ()) [1, 2] = some (3 / 2) := by
  rw [claim_C4 fwdW (PyTree.leaf ()) [1, 2] (by simp)
    (by intro d h; simp [fwdW])]
  norm_num [lossSeq, fwdW]

/-- C5: the two unguarded divisions of the notebook's evaluation loops
fail on an empty data source instead of returning a value: evaluate
reaches total_L / ntotal with ntotal = 0, and evaluate_cache divides by
len(data_source) = 0; both ZeroDivisionErrors are modelled as none. -/
theorem claim_C5 (V D : Type) (fwd : D → PyTree V → List ℚ × PyTree V)
    (z : PyTree V) (f : ℕ → ℕ → List ℚ) (bsz : ℚ) (bptt : ℕ) (hb : 0 < bptt) :
    evaluate fwd z [] = none ∧ evaluate_cache f bsz 0 bptt = none := by
  constructor
  · rfl
  · unfold evaluate_cache
    rw [if_neg (Nat.pos_iff_ne_zero.mp hb)]
    rfl

theorem claim_C5_witness :
    evaluate fwdW (PyTree.leaf ()) [] = none ∧ evaluate_cache cacheProbe 1 0 1 = none :=
  claim_C5 Unit ℚ fwdW (PyTree.leaf ()) cacheProbe 1 1 (by decide)

/-- C1 counterexample: on a data source of length 3 scored with bptt = 1
and batch dimension 1, evaluate_cache hits the early return at i == bptt
after scoring only the first segment and returns 0, while the loop the
claim describes (walk the whole sequence, divide by len(data_source))
returns 1/3; so evaluate_cache does not return the mean per-token negative
log-probability over the entire data source. -/
theorem claim_C1_counterexample :
    evaluate_cache cacheProbe 1 3 1 = some 0 ∧
    evaluate_cache_full cacheProbe 1 3 1 = some (1 / 3) ∧
    some (0 : ℚ) ≠ some (1 / 3 : ℚ) := by
  refine ⟨?_, ?_, ?_⟩
  · rw [show evaluate_cache cacheProbe 1 3 1
        = evalCacheGo cacheProbe 1 3 1 3 1 (0 + (cacheProbe 0 1).sum / 1) from rfl]
    rw [show evalCacheGo cacheProbe 1 3 1 3 1 (0 + (cacheProbe 0 1).sum / 1)
        = some ((0 + (cacheProbe 0 1).sum / 1) / ((1 : ℕ) : ℚ)) from rfl]
    norm_num [cacheProbe]
  · rw [show evaluate_cache_full cacheProbe 1 3 1
        = evalCacheFullGo cacheProbe 1 3 1 3 1 (0 + (cacheProbe 0 1).sum / 1) from rfl]
    rw [show evalCacheFullGo cacheProbe 1 3 1 3 1 (0 + (cacheProbe 0 1).sum / 1)
        = evalCacheFullGo cacheProbe 1 3 1 2 2
            (0 + (cacheProbe 0 1).sum / 1 + (cacheProbe 1 1).sum / 1) from rfl]
    rw [show evalCacheFullGo cacheProbe 1 3 1 2 2
          (0 + (cacheProbe 0 1).sum / 1 + (cacheProbe 1 1).sum / 1)
        = some ((0 + (cacheProbe 0 1).sum / 1 + (cacheProbe 1 1).sum / 1)
            / ((3 : ℕ) : ℚ)) from rfl]
    norm_num [cacheProbe]
  · norm_num

/-- C1 amended: for 0 < bptt, evaluate_cache scores only the first segment
of min(bptt, len(data_source) - 1) tokens.  When len(data_source) - 1 ≤
bptt the loop body runs at most once and the accumulated loss is divided
by len(data_source); when len(data_source) - 1 > bptt the second iteration
hits the early return at i == bptt and the accumulated loss of the first
segment is divided by bptt instead; an empty data source is a
ZeroDivisionError. -/
theorem claim_C1_amended (f : ℕ → ℕ → List ℚ) (bsz : ℚ) (n bptt : ℕ)
    (hb : 0 < bptt) :
    (n = 0 → evaluate_cache f bsz n bptt = none) ∧
    (n = 1 → evaluate_cache f bsz n bptt = some 0) ∧
    (2 ≤ n → n ≤ bptt + 1 →
      evaluate_cache f bsz n bptt = some (((f 0 (n - 1)).sum / bsz) / (n : ℚ))) ∧
    (bptt + 1 < n →
      evaluate_cache f bsz n bptt = some (((f 0 bptt).sum / bsz) / (bptt : ℚ))) := by
  have hbne : bptt ≠ 0 := Nat.pos_iff_ne_zero.mp hb
  refine ⟨?_, ?_, ?_, ?_⟩
  · intro hn
    subst hn
    unfold evaluate_cache
    rw [if_neg hbne]
    rfl
  · intro hn
    subst hn
    unfold evaluate_cache
    rw [if_neg hbne]
    rw [show evalCacheGo f bsz 1 bptt (1 + 1) 0 0
        = (if 0 < 1 - 1 then
            if 0 = bptt then some (0 / (0 : ℚ))
            else evalCacheGo f bsz 1 bptt 1 (0 + bptt)
              (0 + (f 0 (min bptt (1 - 1 - 0))).sum / bsz)
          else if 1 = 0 then none else some (0 / ((1 : ℕ) : ℚ))) from rfl]
    norm_num
  · intro h2 hle
    obtain ⟨m, rfl⟩ : ∃ m, n = m + 2 := ⟨n - 2, by omega⟩
    unfold evaluate_cache
    rw [if_neg hbne]
    rw [show evalCacheGo f bsz (m + 2) bptt (m + 2 + 1) 0 0
        = (if 0 < m + 2 - 1 then
            if 0 = bptt then some (0 / (0 : ℚ))
            else evalCacheGo f bsz (m + 2) bptt (m + 2) (0 + bptt)
              (0 + (f 0 (min bptt (m + 2 - 1 - 0))).sum / bsz)
          else if m + 2 = 0 then none else some (0 / ((m + 2 : ℕ) : ℚ))) from rfl]
    rw [if_pos (by omega : 0 < m + 2 - 1), if_neg (by omega : ¬ 0 = bptt)]
    have hmin : min bptt (m + 2 - 1 - 0) = m + 1 := by omega
    rw [hmin]
    rw [show evalCacheGo f bsz (m + 2) bptt (m + 2) (0 + bptt)
          (0 + (f 0 (m + 1)).sum / bsz)
        = (if 0 + bptt < m + 2 - 1 then
            if 0 + bptt = bptt then
              some ((0 + (f 0 (m + 1)).sum / bsz) / ((0 + bptt : ℕ) : ℚ))
            else evalCacheGo f bsz (m + 2) bptt (m + 1) (0 + bptt + bptt)
              ((0 + (f 0 (m + 1)).sum / bsz)
                + (f (0 + bptt) (min bptt (m + 2 - 1 - (0 + bptt)))).sum / bsz)
          else if m + 2 = 0 then none
          else some ((0 + (f 0 (m + 1)).sum / bsz) / ((m + 2 : ℕ) : ℚ))) from rfl]
    rw [if_neg (by omega : ¬ 0 + bptt < m + 2 - 1), if_neg (by omega : ¬ m + 2 = 0)]
    have hn1 : m + 2 - 1 = m + 1 := by omega
    rw [hn1]
    norm_num
  · intro hlt
    obtain ⟨m, rfl⟩ : ∃ m, n = m + 2 := ⟨n - 2, by omega⟩
    unfold evaluate_cache
    rw [if_neg hbne]
    rw [show evalCacheGo f bsz (m + 2) bptt (m + 2 + 1) 0 0
        = (if 0 < m + 2 - 1 then
            if 0 = bptt then some (0 / (0 : ℚ))
            else evalCacheGo f bsz (m + 2) bptt (m + 2) (0 + bptt)
              (0 + (f 0 (min bptt (m + 2 - 1 - 0))).sum / bsz)
          else if m + 2 = 0 then none else some (0 / ((m + 2 : ℕ) : ℚ))) from rfl]
    rw [if_pos (by omega : 0 < m + 2 - 1), if_neg (by omega : ¬ 0 = bptt)]
    have hmin : min bptt (m + 2 - 1 - 0) = bptt := by omega
    rw [hmin]
    rw [show evalCacheGo f bsz (m + 2) bptt (m + 2) (0 + bptt)
          (0 + (f 0 bptt).sum / bsz)
        = (if 0 + bptt < m + 2 - 1 then
            if 0 + bptt = bptt then
              some ((0 + (f 0 bptt).sum / bsz) / ((0 + bptt : ℕ) : ℚ))
            else evalCacheGo f bsz (m + 2) bptt (m + 1) (0 + bptt + bptt)
              ((0 + (f 0 bptt).sum / bsz)
                + (f (0 + bptt) (min bptt (m + 2 - 1 - (0 + bptt)))).sum / bsz)
          else if m + 2 = 0 then none
          else some ((0 + (f 0 bptt).sum / bsz) / ((m + 2 : ℕ) : ℚ))) from rfl]
    rw [if_pos (by omega : 0 + bptt < m + 2 - 1), if_pos (by omega : 0 + bptt = bptt)]
    norm_num

theorem claim_C1_witness :
    evaluate_cache cacheProbe 1 0 5 = none ∧
    evaluate_cache cacheProbe 1 3 5 = some 0 := by
  constructor
  · exact (claim_C1_amended cacheProbe 1 0 5 (by norm_num)).1 rfl
  · rw [(claim_C1_amended cacheProbe 1 3 5 (by norm_num)).2.2.1 (by norm_num) (by norm_num)]
    norm_num [cacheProbe]

/-- C8: for i with 0 ≤ i ≤ len(data_source) - 1 and the default (falsy)
seq_len, get_batch returns the slices data = data_source[i : i+L] and
target = data_source[i+1 : i+1+L] with L = min(bptt, len - 1 - i); both
have length L, and element k of target is the element of the data source
immediately following element k of data; a passed seq_len of 0 behaves
like the default None. -/
theorem claim_C8 {α : Type} (bptt : ℕ) (ds : List α) (i : ℕ)
    (hi : i + 1 ≤ ds.length) :
    (get_batch bptt ds i none).1 = (ds.drop i).take (min bptt (ds.length - 1 - i)) ∧
    (get_batch bptt ds i none).2
      = (ds.drop (i + 1)).take (min bptt (ds.length - 1 - i)) ∧
    (get_batch bptt ds i none).1.length = min bptt (ds.length - 1 - i) ∧
    (get_batch bptt ds i none).2.length = min bptt (ds.length - 1 - i) ∧
    (∀ k, k < min bptt (ds.length - 1 - i) →
      (get_batch bptt ds i none).1[k]? = ds[i + k]? ∧
      (get_batch bptt ds i none).2[k]? = ds[i + k + 1]?) ∧
    get_batch bptt ds i (some 0) = get_batch bptt ds i none := by
  have hgb : get_batch bptt ds i none
      = (pySlice ds i
           ((i : ℤ) + min ((bptt : ℕ) : ℤ) ((ds.length : ℤ) - 1 - (i : ℤ))),
         pySlice ds (i + 1)
           (((i + 1 : ℕ) : ℤ) + min ((bptt : ℕ) : ℤ) ((ds.length : ℤ) - 1 - (i : ℤ)))) := by
    unfold get_batch
    push_cast
    ring_nf
  have htoNat1 : ((i : ℤ) + min ((bptt : ℕ) : ℤ) ((ds.length : ℤ) - 1 - (i : ℤ))).toNat
      = i + min bptt (ds.length - 1 - i) := by omega
  have htoNat2 : (((i + 1 : ℕ) : ℤ)
        + min ((bptt : ℕ) : ℤ) ((ds.length : ℤ) - 1 - (i : ℤ))).toNat
      = i + 1 + min bptt (ds.length - 1 - i) := by omega
  have h1 : (get_batch bptt ds i none).1
      = pySlice ds i ((i : ℤ) + min ((bptt : ℕ) : ℤ) ((ds.length : ℤ) - 1 - (i : ℤ))) := by
    rw [hgb]
  have h2 : (get_batch bptt ds i none).2
      = pySlice ds (i + 1)
          (((i + 1 : ℕ) : ℤ) + min ((bptt : ℕ) : ℤ) ((ds.length : ℤ) - 1 - (i : ℤ))) := by
    rw [hgb]
  have hdata : (get_batch bptt ds i none).1
      = (ds.drop i).take (min bptt (ds.length - 1 - i)) := by
    rw [h1]
    unfold pySlice
    rw [htoNat1, List.drop_take]
    rw [show i + min bptt (ds.length - 1 - i) - i = min bptt (ds.length - 1 - i) from by
      omega]
  have htarget : (get_batch bptt ds i none).2
      = (ds.drop (i + 1)).take (min bptt (ds.length - 1 - i)) := by
    rw [h2]
    unfold pySlice
    rw [htoNat2, List.drop_take]
    rw [show i + 1 + min bptt (ds.length - 1 - i) - (i + 1)
        = min bptt (ds.length - 1 - i) from by omega]
  refine ⟨hdata, htarget, ?_, ?_, ?_, ?_⟩
  · rw [hdata]
    simp only [List.length_take, List.length_drop]
    omega
  · rw [htarget]
    simp only [List.length_take, List.length_drop]
    omega
  · intro k hk
    constructor
    · rw [hdata]
      rw [List.getElem?_take_of_lt hk, List.getElem?_drop]
    · rw [htarget]
      rw [List.getElem?_take_of_lt hk, List.getElem?_drop]
      rw [show i + 1 + k = i + k + 1 from by omega]
  · rfl

theorem claim_C8_witness :
    (get_batch 2 [10, 20, 30] 0 none).1 = [10, 20] ∧
    (get_batch 2 [10, 20, 30] 0 none).2 = [20, 30] ∧
    (get_batch 2 [10, 20, 30] 0 none).2[0]? = some 20 := by
  have h := claim_C8 2 [10, 20, 30] 0 (by norm_num)
  refine ⟨?_, ?_, ?_⟩
  · rw [h.1]
    rfl
  · rw [h.2.1]
    rfl
  · rw [(h.2.2.2.2.1 0 (by norm_num)).2]
    rfl

theorem before_append {A B : List TrainOp} {a b : TrainOp}
    (ha : a ∉ B) (hb : b ∉ A) :
    ∀ i j : ℕ, (A ++ B)[i]? = some a → (A ++ B)[j]? = some b → i < j := by
  intro i j hia hjb
  have hi : i < A.length := by
    by_contra hc
    push_neg at hc
    rw [List.getElem?_append_right hc] at hia
    obtain ⟨hlt, rfl⟩ := List.getElem?_eq_some.mp hia
    exact ha (List.getElem_mem hlt)
  have hj : A.length ≤ j := by
    by_contra hc
    push_neg at hc
    rw [List.getElem?_append_left hc] at hjb
    obtain ⟨hlt, rfl⟩ := List.getElem?_eq_some.mp hjb
    exact hb (List.getElem_mem hlt)
  omega

theorem mem_recordFlattened {x : TrainOp × Bool} {n : ℕ}
    (hx : x ∈ (List.replicate n recordBlock).flatten) : x ∈ recordBlock := by
  obtain ⟨l, hl, hxl⟩ := List.mem_flatten.mp hx
  rwa [List.eq_of_mem_replicate hl] at hxl

theorem not_mem_map_recordFlattened {o : TrainOp} {n : ℕ}
    (ho : o ∉ recordBlock.map Prod.fst) :
    o ∉ ((List.replicate n recordBlock).flatten.map Prod.fst) := by
  intro hmem
  obtain ⟨p, hp, rfl⟩ := List.mem_map.mp hmem
  exact ho (List.mem_map.mpr ⟨p, mem_recordFlattened hp, rfl⟩)

/-- C2: in every iteration of train's batch loop there is exactly one
backward pass, one clipping of the global gradient norm and one optimizer
step; every forward pass comes before the backward pass, the backward
pass comes before the clipping, and the clipping comes before the
optimizer step, so no optimizer step occurs before the gradients of the
batch have been clipped. -/
theorem claim_C2 (ndev : ℕ) :
    ((trainBatchTrace ndev).map Prod.fst).count TrainOp.backward = 1 ∧
    ((trainBatchTrace ndev).map Prod.fst).count TrainOp.clipGlobalNorm = 1 ∧
    ((trainBatchTrace ndev).map Prod.fst).count TrainOp.trainerStep = 1 ∧
    (∀ i j : ℕ, ((trainBatchTrace ndev).map Prod.fst)[i]? = some TrainOp.forward →
      ((trainBatchTrace ndev).map Prod.fst)[j]? = some TrainOp.backward → i < j) ∧
    (∀ i j : ℕ, ((trainBatchTrace ndev).map Prod.fst)[i]? = some TrainOp.backward →
      ((trainBatchTrace ndev).map Prod.fst)[j]? = some TrainOp.clipGlobalNorm → i < j) ∧
    (∀ i j : ℕ, ((trainBatchTrace ndev).map Prod.fst)[i]? = some TrainOp.clipGlobalNorm →
      ((trainBatchTrace ndev).map Prod.fst)[j]? = some TrainOp.trainerStep → i < j) := by
  have hcount : ∀ o : TrainOp, o ∉ recordBlock.map Prod.fst →
      ((trainBatchTrace ndev).map Prod.fst).count o
        = ([TrainOp.splitData, TrainOp.splitTarget, TrainOp.detachHiddens].count o)
          + ([TrainOp.backward, TrainOp.collectGrads, TrainOp.clipGlobalNorm,
              TrainOp.trainerStep, TrainOp.accumTotal, TrainOp.logStat].count o) := by
    intro o ho
    unfold trainBatchTrace
    rw [List.map_append, List.map_append, List.count_append, List.count_append]
    rw [List.count_eq_zero.mpr (not_mem_map_recordFlattened ho)]
    simp only [List.map_cons, List.map_nil]
    omega
  refine ⟨?_, ?_, ?_, ?_, ?_, ?_⟩
  · rw [hcount TrainOp.backward (by decide)]
    decide
  · rw [hcount TrainOp.clipGlobalNorm (by decide)]
    decide
  · rw [hcount TrainOp.trainerStep (by decide)]
    decide
  · have hsplit : (trainBatchTrace ndev).map Prod.fst
        = (([(TrainOp.splitData, false), (TrainOp.splitTarget, false),
             (TrainOp.detachHiddens, false)]
            ++ (List.replicate ndev recordBlock).flatten).map Prod.fst)
          ++ ([(TrainOp.backward, false), (TrainOp.collectGrads, false),
               (TrainOp.clipGlobalNorm, false), (TrainOp.trainerStep, false),
               (TrainOp.accumTotal, false), (TrainOp.logStat, false)].map Prod.fst) := by
      unfold trainBatchTrace
      rw [List.map_append]
    rw [hsplit]
    apply before_append
    · decide
    · rw [List.map_append]
      intro hmem
      rcases List.mem_append.mp hmem with hmem | hmem
      · revert hmem
        decide
      · exact not_mem_map_recordFlattened (by decide) hmem
  · have hsplit : (trainBatchTrace ndev).map Prod.fst
        = (([(TrainOp.splitData, false), (TrainOp.splitTarget, false),
             (TrainOp.detachHiddens, false)]
            ++ (List.replicate ndev recordBlock).flatten
            ++ [(TrainOp.backward, false), (TrainOp.collectGrads, false)]).map Prod.fst)
          ++ ([(TrainOp.clipGlobalNorm, false), (TrainOp.trainerStep, false),
               (TrainOp.accumTotal, false), (TrainOp.logStat, false)].map Prod.fst) := by
      unfold trainBatchTrace
      rw [← List.map_append]
      rw [List.append_assoc, List.append_assoc]
      rfl
    rw [hsplit]
    apply before_append
    · decide
    · rw [List.map_append, List.map_append]
      intro hmem
      rcases List.mem_append.mp hmem with hmem | hmem
      · rcases List.mem_append.mp hmem with hmem | hmem
        · revert hmem
          decide
        · exact not_mem_map_recordFlattened (by decide) hmem
      · revert hmem
        decide
  · have hsplit : (trainBatchTrace ndev).map Prod.fst
        = (([(TrainOp.splitData, false), (TrainOp.splitTarget, false),
             (TrainOp.detachHiddens, false)]
            ++ (List.replicate ndev recordBlock).flatten
            ++ [(TrainOp.backward, false), (TrainOp.collectGrads, false),
                (TrainOp.clipGlobalNorm, false)]).map Prod.fst)
          ++ ([(TrainOp.trainerStep, false),
               (TrainOp.accumTotal, false), (TrainOp.logStat, false)].map Prod.fst) := by
      unfold trainBatchTrace
      rw [← List.map_append]
      rw [List.append_assoc, List.append_assoc]
      rfl
    rw [hsplit]
    apply before_append
    · decide
    · rw [List.map_append, List.map_append]
      intro hmem
      rcases List.mem_append.mp hmem with hmem | hmem
      · rcases List.mem_append.mp hmem with hmem | hmem
        · revert hmem
          decide
        · exact not_mem_map_recordFlattened (by decide) hmem
      · revert hmem
        decide

theorem claim_C2_witness : (3 : ℕ) < 7 ∧ (7 : ℕ) < 9 ∧ (9 : ℕ) < 10 := by
  have h := claim_C2 1
  refine ⟨h.2.2.2.1 3 7 (by decide) (by decide),
          h.2.2.2.2.1 7 9 (by decide) (by decide),
          h.2.2.2.2.2 9 10 (by decide) (by decide)⟩

/-- C6: in train's batch loop, gradient recording is active exactly for
the statements of the autograd.record() block, namely the forward pass,
the loss computation, the loss accumulation and the storing of the new
hidden state; the backward pass, the gradient collection and clipping,
the optimizer step and the bookkeeping all run outside the recording
context. -/
theorem claim_C6 (ndev : ℕ) :
    ∀ p ∈ trainBatchTrace ndev,
      p.2 = true ↔ (p.1 = TrainOp.forward ∨ p.1 = TrainOp.lossCalc ∨
        p.1 = TrainOp.accumLoss ∨ p.1 = TrainOp.storeHidden) := by
  intro p hp
  unfold trainBatchTrace at hp
  rcases List.mem_append.mp hp with hp | hp
  · rcases List.mem_append.mp hp with hp | hp
    · simp only [List.mem_cons, List.not_mem_nil, or_false] at hp
      rcases hp with rfl | rfl | rfl <;> decide
    · have hrec := mem_recordFlattened hp
      unfold recordBlock at hrec
      simp only [List.mem_cons, List.not_mem_nil, or_false] at hrec
      rcases hrec with rfl | rfl | rfl | rfl <;> decide
  · simp only [List.mem_cons, List.not_mem_nil, or_false] at hp
    rcases hp with rfl | rfl | rfl | rfl | rfl | rfl <;> decide

theorem claim_C6_witness :
    ((TrainOp.forward, true).2 = true
      ↔ ((TrainOp.forward, true).1 = TrainOp.forward ∨
         (TrainOp.forward, true).1 = TrainOp.lossCalc ∨
         (TrainOp.forward, true).1 = TrainOp.accumLoss ∨
         (TrainOp.forward, true).1 = TrainOp.storeHidden)) :=
  claim_C6 1 (TrainOp.forward, true) (by decide)

/-- C7 counterexample: bptt does not keep its initially assigned value 35
throughout the notebook: the cache-model hyperparameter cell rebinds it to
2000, so the uses of bptt after that cell (get_batch and evaluate_cache)
see 2000 while the uses before it (batchifying and training) saw 35. -/
theorem claim_C7_counterexample :
    hparamAt 5 HParam.bptt = some 35 ∧
    hparamAt 6 HParam.bptt = some 2000 ∧
    (35 : ℚ) ≠ 2000 := by
  refine ⟨rfl, rfl, by norm_num⟩

/-- C7 amended: batch_size, lr, epochs and grad_clip keep their initially
assigned values (20, 20, 3, 0.25) at every later point of the notebook's
execution; bptt keeps its initial value 35 only up to the cache-model
hyperparameter cell, which rebinds it to 2000, the value every later use
sees. -/
theorem claim_C7_amended : ∀ k : ℕ,
    (1 ≤ k → hparamAt k HParam.batch_size = some 20) ∧
    (2 ≤ k → hparamAt k HParam.lr = some 20) ∧
    (3 ≤ k → hparamAt k HParam.epochs = some 3) ∧
    (5 ≤ k → hparamAt k HParam.grad_clip = some (1/4)) ∧
    (4 ≤ k → k ≤ 5 → hparamAt k HParam.bptt = some 35) ∧
    (6 ≤ k → hparamAt k HParam.bptt = some 2000) := by
  intro k
  by_cases hk : k ≤ 6
  · interval_cases k <;>
      exact ⟨by intro h; first | omega | rfl, by intro h; first | omega | rfl,
             by intro h; first | omega | rfl, by intro h; first | omega | rfl,
             by intro h h2; first | omega | rfl, by intro h; first | omega | rfl⟩
  · have hstable : ∀ x, hparamAt k x = hparamAt 6 x := by
      intro x
      unfold hparamAt
      rw [List.take_of_length_le (by simp [hparamAssigns]; omega),
          List.take_of_length_le (by simp [hparamAssigns])]
    refine ⟨fun h => ?_, fun h => ?_, fun h => ?_, fun h => ?_,
            fun h h2 => ?_, fun h => ?_⟩
    · rw [hstable]
      rfl
    · rw [hstable]
      rfl
    · rw [hstable]
      rfl
    · rw [hstable]
      rfl
    · omega
    · rw [hstable]
      rfl

theorem claim_C7_witness :
    hparamAt 4 HParam.bptt = some 35 ∧
    hparamAt 6 HParam.bptt = some 2000 ∧
    hparamAt 6 HParam.lr = some 20 :=
  ⟨(claim_C7_amended 4).2.2.2.2.1 (by norm_num) (by norm_num),
   (claim_C7_amended 6).2.2.2.2.2 (by norm_num),
   (claim_C7_amended 6).2.1 (by norm_num)⟩

/-- C10: throughout train, best_val equals the minimum of positive
infinity and all validation losses seen so far, so it never increases
when a further epoch is processed; in each epoch exactly one of the two
branches runs, saveAndTest (test evaluation and parameter saving) exactly
when the epoch's validation loss is strictly below best_val and decayLr
otherwise; and the learning rate ends as the initial rate times 0.25 for
every decay epoch. -/
theorem claim_C10 (lr0 : ℚ) (vals : List ℚ) :
    (trainEpochs lr0 vals).best
      = List.foldl (fun (x : WithTop ℚ) (v : ℚ) => min x (v : WithTop ℚ)) ⊤ vals ∧
    (∀ v : ℚ, (trainEpochs lr0 (vals ++ [v])).best ≤ (trainEpochs lr0 vals).best) ∧
    (trainEpochs lr0 vals).actions = epochActionsSpec vals ⊤ ∧
    (trainEpochs lr0 vals).lr
      = lr0 * (1/4) ^ ((epochActionsSpec vals ⊤).count EpochAction.decayLr) := by
  refine ⟨?_, ?_, ?_, ?_⟩
  · unfold trainEpochs
    exact foldl_epochStep_best vals ⊤ lr0 []
  · intro v
    unfold trainEpochs
    rw [foldl_epochStep_best (vals ++ [v]) ⊤ lr0 [],
        foldl_epochStep_best vals ⊤ lr0 []]
    rw [List.foldl_append, List.foldl_cons, List.foldl_nil]
    exact min_le_left _ _
  · unfold trainEpochs
    rw [foldl_epochStep_actions vals ⊤ lr0 []]
    simp
  · unfold trainEpochs
    exact foldl_epochStep_lr vals ⊤ lr0 []
